import Mathlib

/-!
Shallow embedding of the febft BFT-SMR core, translated from the Rust
sources, together with theorems settling the specification claims about
it.  Machine integers are modelled as `Int`/`Nat` with explicit
two's-complement wrapping where the source relies on it.
-/

namespace Febft

/-- Request/batch digests (`crate::bft::crypto::hash::Digest`, an opaque
32-byte hash value) are modelled as natural numbers. -/
abbrev Digest := Nat

/-- `NodeId` is a `u32` newtype; modelled as a natural number. -/
abbrev NodeId := Nat

/-- The part of a wire message `Header` that the embedded code inspects:
`header.from()` (the sending node) and `header.digest()` (the digest of
the wire payload). -/
structure Header where
  hFrom : NodeId
  hDigest : Digest
  deriving DecidableEq

/-- `ConsensusMessageKind` as defined in `bft/consensus/mod.rs`: a
`PRE-PREPARE` carries the digest of the proposed request, while
`PREPARE` and `COMMIT` carry no payload at all (in particular neither a
view number nor a batch digest). -/
inductive ConsensusMessageKind where
  | PrePrepare (digest : Digest)
  | Prepare
  | Commit
  deriving DecidableEq

/-- A consensus message as constructed in `bft/consensus/mod.rs`:
`ConsensusMessage::new(seq, kind)`.  The sequence number `SeqNo` wraps an
`i32`; we carry its value as an `Int`. -/
structure ConsensusMessage where
  seq : Int
  kind : ConsensusMessageKind
  deriving DecidableEq

/-- Interpret an integer as a 32-bit two's-complement value: the unique
representative in `[-2^31, 2^31)` congruent mod `2^32`.  Models Rust
`i32` wrapping arithmetic. -/
def wrap32 (z : Int) : Int :=
  (z + 2 ^ 31) % 2 ^ 32 - 2 ^ 31

/-- `OVERFLOW_THRES_POS` from `SeqNo::index`. -/
def OVERFLOW_THRES_POS : Int := 10000

/-- `OVERFLOW_THRES_NEG` from `SeqNo::index`. -/
def OVERFLOW_THRES_NEG : Int := -OVERFLOW_THRES_POS

/-- `DROP_SEQNO_THRES = (history::PERIOD + (history::PERIOD >> 1)) as i32`.
The `history` module is not among the sources, so the checkpoint period
is a parameter here; the `u32` sum is cast to `i32` via `wrap32`. -/
def DROP_SEQNO_THRES (period : Nat) : Int :=
  wrap32 ((period : Int) + (period / 2 : Nat))

/-- The normalization step of `SeqNo::index`: `self.wrapping_sub(other)`,
guarded against overflows by `i32::MAX.wrapping_add(index).wrapping_add(1)`
when the raw difference falls outside `[-10000, 10000]`. -/
def SeqNo.normalizedIndex (self other : Int) : Int :=
  let index := wrap32 (self - other)
  if index < OVERFLOW_THRES_NEG ∨ OVERFLOW_THRES_POS < index then
    wrap32 (2 ^ 31 - 1 + index + 1)
  else
    index

/-- `SeqNo::index(self, other)`: the slot of the `TBOQueue` a message
with sequence number `self` lands in when the queue is based at `other`,
or `None` when the message is dropped as stale or adversarial. -/
def SeqNo.index (period : Nat) (self other : Int) : Option Nat :=
  let index := SeqNo.normalizedIndex self other
  if index < 0 ∨ DROP_SEQNO_THRES period < index then
    none
  else
    some index.toNat

/-- One slot of a TBO deque: the messages buffered for one height. -/
abbrev TboSlot := List (Header × ConsensusMessage)

/-- `TBOQueue::queue_message`: compute the index of the message relative
to the current sequence number; drop the message when out of range,
otherwise grow the deque up to that index and push the message onto the
back of that slot. -/
def queue_message (period : Nat) (curr_seq : Int) (tbo : List TboSlot)
    (h : Header) (m : ConsensusMessage) : List TboSlot :=
  match SeqNo.index period m.seq curr_seq with
  | none => tbo
  | some index =>
    let tbo := if tbo.length ≤ index then
        tbo ++ List.replicate (index + 1 - tbo.length) []
      else
        tbo
    tbo.set index (tbo.getD index [] ++ [(h, m)])

/-- The `TBOQueue` state: current base sequence number, the re-poll flag
and one deque of slots per message kind. -/
structure TBOQueue where
  curr_seq : Int
  get_queue : Bool
  pre_prepares : List TboSlot
  prepares : List TboSlot
  commits : List TboSlot
  deriving DecidableEq

/-- `TBOQueue::queue`: dispatch on the message kind and queue into the
matching deque. -/
def TBOQueue.queue (period : Nat) (q : TBOQueue) (h : Header)
    (m : ConsensusMessage) : TBOQueue :=
  match m.kind with
  | .PrePrepare _ =>
    { q with pre_prepares := queue_message period q.curr_seq q.pre_prepares h m }
  | .Prepare =>
    { q with prepares := queue_message period q.curr_seq q.prepares h m }
  | .Commit =>
    { q with commits := queue_message period q.curr_seq q.commits h m }

/-- Projection of the deque matching a message kind. -/
def TBOQueue.deque_of (q : TBOQueue) : ConsensusMessageKind → List TboSlot
  | .PrePrepare _ => q.pre_prepares
  | .Prepare => q.prepares
  | .Commit => q.commits

/-- The slice of `ViewInfo` the consensus module reads: `view.leader()`,
`view.params().n()` and `view.params().quorum()`.  The quorum is kept as
its own field, exactly as the code obtains it through an accessor. -/
structure ViewInfo where
  leader : NodeId
  n : Nat
  quorum : Nat
  deriving DecidableEq

/-- `ProtoPhase` from `bft/consensus/mod.rs`. -/
inductive ProtoPhase where
  | Init
  | PrePreparing
  | Preparing (i : Nat)
  | Committing (i : Nat)
  deriving DecidableEq

/-- `ConsensusStatus` from `bft/consensus/mod.rs`.  `VotedTwice` is
declared in the source but never produced by `process_message`. -/
inductive ConsensusStatus where
  | VotedTwice (id : NodeId)
  | Deciding
  | Decided (d : Digest)
  deriving DecidableEq

/-- The mutable state of `Consensus<S>`: the protocol phase, the TBO
queue and the digest of the request currently being decided.  (The
`voted: HashSet<NodeId>` field is commented out in the source.) -/
structure Consensus where
  phase : ProtoPhase
  tbo : TBOQueue
  current : Digest
  deriving DecidableEq

/-- `Consensus::queue_pre_prepare`. -/
def Consensus.queue_pre_prepare (period : Nat) (s : Consensus) (h : Header)
    (m : ConsensusMessage) : Consensus :=
  { s with tbo :=
    { s.tbo with pre_prepares :=
        queue_message period s.tbo.curr_seq s.tbo.pre_prepares h m } }

/-- `Consensus::queue_prepare`. -/
def Consensus.queue_prepare (period : Nat) (s : Consensus) (h : Header)
    (m : ConsensusMessage) : Consensus :=
  { s with tbo :=
    { s.tbo with prepares :=
        queue_message period s.tbo.curr_seq s.tbo.prepares h m } }

/-- `Consensus::queue_commit`. -/
def Consensus.queue_commit (period : Nat) (s : Consensus) (h : Header)
    (m : ConsensusMessage) : Consensus :=
  { s with tbo :=
    { s.tbo with commits :=
        queue_message period s.tbo.curr_seq s.tbo.commits h m } }

/-- `Consensus::propose(dig, view, node)`.  The broadcast performed via
`node.broadcast` is returned as a list of messages.  Note that the Rust
code first replaces the phase (`Init => PrePreparing`, anything else
returns) and only then checks whether the node is the view's leader. -/
def Consensus.propose (myId : NodeId) (view : ViewInfo) (dig : Digest)
    (s : Consensus) : Consensus × List ConsensusMessage :=
  match s.phase with
  | .Init =>
    let s := { s with phase := .PrePreparing }
    if myId ≠ view.leader then
      (s, [])
    else
      (s, [⟨s.tbo.curr_seq, .PrePrepare dig⟩])
  | _ => (s, [])

/-- `Consensus::process_message(header, message, view, log, node)`.
The log is abstracted by the predicate the code queries on it
(`log.has_request(&self.current)`); broadcasts are returned as a list.
Returns the new state, the `ConsensusStatus` and the broadcasts. -/
def Consensus.process_message (period : Nat) (myId : NodeId) (view : ViewInfo)
    (hasRequest : Digest → Bool) (s : Consensus) (header : Header)
    (message : ConsensusMessage) :
    Consensus × ConsensusStatus × List ConsensusMessage :=
  match s.phase with
  | .Init =>
    match message.kind with
    | .PrePrepare _ => (s.queue_pre_prepare period header message, .Deciding, [])
    | .Prepare => (s.queue_prepare period header message, .Deciding, [])
    | .Commit => (s.queue_commit period header message, .Deciding, [])
  | .PrePreparing =>
    match message.kind with
    | .PrePrepare dig =>
      if message.seq ≠ s.tbo.curr_seq then
        (s.queue_pre_prepare period header message, .Deciding, [])
      else
        let s := { s with current := dig }
        let broadcasts :=
          if myId ≠ view.leader then
            [(⟨s.tbo.curr_seq, .Prepare⟩ : ConsensusMessage)]
          else
            []
        ({ s with phase := .Preparing 0 }, .Deciding, broadcasts)
    | .Prepare => (s.queue_prepare period header message, .Deciding, [])
    | .Commit => (s.queue_commit period header message, .Deciding, [])
  | .Preparing i =>
    match message.kind with
    | .PrePrepare _ => (s.queue_pre_prepare period header message, .Deciding, [])
    | .Prepare =>
      if message.seq ≠ s.tbo.curr_seq then
        (s.queue_prepare period header message, .Deciding, [])
      else
        let i := i + 1
        if myId ≠ view.leader ∧ ¬ hasRequest s.current then
          ({ s with tbo := s.tbo.queue period header message }, .Deciding, [])
        else if i = view.quorum then
          ({ s with phase := .Committing 0 }, .Deciding,
            [(⟨s.tbo.curr_seq, .Commit⟩ : ConsensusMessage)])
        else
          ({ s with phase := .Preparing i }, .Deciding, [])
    | .Commit => (s.queue_commit period header message, .Deciding, [])
  | .Committing i =>
    match message.kind with
    | .PrePrepare _ => (s.queue_pre_prepare period header message, .Deciding, [])
    | .Prepare => (s.queue_prepare period header message, .Deciding, [])
    | .Commit =>
      if message.seq ≠ s.tbo.curr_seq then
        (s.queue_commit period header message, .Deciding, [])
      else
        let i := i + 1
        if i = view.quorum then
          ({ s with phase := .Init }, .Decided s.current, [])
        else
          ({ s with phase := .Committing i }, .Deciding, [])

/-- `PollStatus` from `bft/consensus/mod.rs`. -/
inductive PollStatus where
  | Recv
  | TryProposeAndRecv
  | NextMessage (h : Header) (m : ConsensusMessage)
  deriving DecidableEq

/-- `TBOQueue::pop_message`: pop the front of slot 0, if any. -/
def pop_message (tbo : List TboSlot) :
    Option (Header × ConsensusMessage) × List TboSlot :=
  match tbo with
  | [] => (none, [])
  | [] :: rest => (none, [] :: rest)
  | (x :: xs) :: rest => (some x, xs :: rest)

/-- `Consensus::poll(log)`: extract a buffered message to process, or
tell the driver to receive; the only state-machine transition it makes
is `Init → PrePreparing` when a buffered `PRE-PREPARE` is extracted.
It never broadcasts. -/
def Consensus.poll (hasRequest : Digest → Bool) (s : Consensus) :
    Consensus × PollStatus :=
  match s.phase with
  | .Init =>
    if s.tbo.get_queue then
      match pop_message s.tbo.pre_prepares with
      | (some (h, m), rest) =>
        ({ s with phase := .PrePreparing, tbo := { s.tbo with pre_prepares := rest } },
          .NextMessage h m)
      | (none, rest) =>
        ({ s with tbo := { s.tbo with get_queue := false, pre_prepares := rest } }, .Recv)
    else
      (s, .TryProposeAndRecv)
  | .PrePreparing =>
    if s.tbo.get_queue then
      match pop_message s.tbo.pre_prepares with
      | (some (h, m), rest) =>
        ({ s with tbo := { s.tbo with pre_prepares := rest } }, .NextMessage h m)
      | (none, rest) =>
        ({ s with tbo := { s.tbo with get_queue := false, pre_prepares := rest } }, .Recv)
    else
      (s, .Recv)
  | .Preparing _ =>
    if ¬ hasRequest s.current then
      ({ s with tbo := { s.tbo with get_queue := false } }, .Recv)
    else if s.tbo.get_queue then
      match pop_message s.tbo.prepares with
      | (some (h, m), rest) =>
        ({ s with tbo := { s.tbo with prepares := rest } }, .NextMessage h m)
      | (none, rest) =>
        ({ s with tbo := { s.tbo with get_queue := false, prepares := rest } }, .Recv)
    else
      (s, .Recv)
  | .Committing _ =>
    if s.tbo.get_queue then
      match pop_message s.tbo.commits with
      | (some (h, m), rest) =>
        ({ s with tbo := { s.tbo with commits := rest } }, .NextMessage h m)
      | (none, rest) =>
        ({ s with tbo := { s.tbo with get_queue := false, commits := rest } }, .Recv)
    else
      (s, .Recv)

/-- One event handled by a replica during a consensus instance: an
attempt to propose (leader path), a `poll` of the buffered queues, or an
incoming consensus message.  Each message event carries the
`log.has_request` observation in force when it is processed. -/
inductive ConsensusEvent where
  | proposal (dig : Digest)
  | polled (hasRequest : Digest → Bool)
  | incoming (hasRequest : Digest → Bool) (header : Header) (message : ConsensusMessage)

/-- Process one event: dispatch to `propose`, `poll` or
`process_message`. -/
def consensusStep (period : Nat) (myId : NodeId) (view : ViewInfo)
    (s : Consensus) :
    ConsensusEvent → Consensus × Option ConsensusStatus × List ConsensusMessage
  | .proposal dig =>
    let (s, broadcasts) := s.propose myId view dig
    (s, none, broadcasts)
  | .polled hasRequest =>
    let (s, _) := s.poll hasRequest
    (s, none, [])
  | .incoming hasRequest header message =>
    let (s, status, broadcasts) :=
      s.process_message period myId view hasRequest header message
    (s, some status, broadcasts)

/-- Run a list of events from a state, collecting the statuses returned
by `process_message` and every message broadcast along the way. -/
def consensusRun (period : Nat) (myId : NodeId) (view : ViewInfo)
    (s : Consensus) :
    List ConsensusEvent →
      Consensus × List (Option ConsensusStatus) × List ConsensusMessage
  | [] => (s, [], [])
  | e :: es =>
    let (s1, status, broadcasts) := consensusStep period myId view s e
    let (s2, statuses, rest) := consensusRun period myId view s1 es
    (s2, status :: statuses, broadcasts ++ rest)

/-- Number of `Prepare` messages with the given sequence number among a
list of events (every such message "matches" the instance: in this
message schema a `Prepare` carries no view and no digest, so the
sequence number is the only field that can agree or differ). -/
def countMatchingPrepares (seq : Int) (events : List ConsensusEvent) : Nat :=
  events.countP fun e =>
    match e with
    | .incoming _ _ m => decide (m.kind = .Prepare ∧ m.seq = seq)
    | _ => false

/-- Number of `Commit` messages with the given sequence number among a
list of events. -/
def countMatchingCommits (seq : Int) (events : List ConsensusEvent) : Nat :=
  events.countP fun e =>
    match e with
    | .incoming _ _ m => decide (m.kind = .Commit ∧ m.seq = seq)
    | _ => false

/-- Number of broadcast messages of the given kind. -/
def countBroadcasts (k : ConsensusMessageKind) (l : List ConsensusMessage) : Nat :=
  l.countP fun m => decide (m.kind = k)

/-- The view of a `ConnectedPeer<T>` that `collect_requests` reads: its
id, whether `receiver.is_dc()` holds, and the requests pending in its
per-client queue (requests modelled as naturals). -/
structure ConnectedPeer where
  client_id : NodeId
  dc : Bool
  queue : List Nat
  deriving DecidableEq

/-- `ConnectedPeer::dump_n_requests`: pop up to `rq_bound` requests off
the front of the per-client queue; returns the dumped requests and the
drained peer (the Rust function appends into the batch vector and
returns how many requests were dumped). -/
def ConnectedPeer.dump_n_requests (c : ConnectedPeer) (rq_bound : Nat) :
    List Nat × ConnectedPeer :=
  (c.queue.take rq_bound, { c with queue := c.queue.drop rq_bound })

/-- `Vec::swap_remove(i)`: replace element `i` with the last element and
pop the last; `none` models the panic when `i` is out of bounds. -/
def swapRemove (l : List ConnectedPeer) (i : Nat) :
    Option (ConnectedPeer × List ConnectedPeer) :=
  match l.getLast? with
  | none => none
  | some last =>
    if h : i < l.length then
      some (l.get ⟨i, h⟩, (l.set i last).dropLast)
    else
      none

/-- The loop body of `ConnectedPeersPool::collect_requests`, iterating
`index` over `0..k0` where `k0` is the length of the client list when
the loop starts.  State carried: the client list (mutated in place in
Rust), the ids of removed disconnected clients, the batch built so far,
and `next_client_requests`.  `none` models a panic (indexing an empty
list, or `swap_remove` out of bounds). -/
def collect_loop (requests_per_client start_point : Nat) :
    Nat → Nat → List ConnectedPeer → List NodeId → List Nat → Nat →
      Option (List Nat × List ConnectedPeer × List NodeId)
  | 0, _, clients, dced, batch, _ => some (batch, clients, dced)
  | fuel + 1, index, clients, dced, batch, next_client_requests =>
    if clients.length = 0 then
      none
    else
      let pos := (start_point + index) % clients.length
      let client := clients.getD pos ⟨0, false, []⟩
      if client.dc then
        match swapRemove clients index with
        | none => none
        | some (removed, clients) =>
          collect_loop requests_per_client start_point fuel (index + 1)
            clients (dced ++ [removed.client_id]) batch
            (next_client_requests + requests_per_client)
      else
        let (dumped, drained) := client.dump_n_requests next_client_requests
        collect_loop requests_per_client start_point fuel (index + 1)
          (clients.set pos drained) dced (batch ++ dumped)
          (next_client_requests - dumped.length + requests_per_client)

/-- `ConnectedPeersPool::collect_requests(batch_size, owner)`.  The
random start index drawn by `fastrand::usize(0..guard.len())` is passed
in as `start_point`.  `none` models the panic of the unguarded
`batch_size / guard.len()` division (and of the empty random range) when
the pool's client list is empty.  Returns the batch, the surviving
client list and the ids handed to `owner.del_cached_clients`. -/
def collect_requests (batch_size start_point : Nat)
    (clients : List ConnectedPeer) :
    Option (List Nat × List ConnectedPeer × List NodeId) :=
  if clients.length = 0 then
    none
  else
    let requests_per_client := batch_size / clients.length
    let requests_remainder := batch_size % clients.length
    collect_loop requests_per_client start_point clients.length 0 clients [] []
      (requests_per_client + requests_remainder)

/-- Equality on `Except` results is decidable componentwise. -/
instance {ε α : Type} [DecidableEq ε] [DecidableEq α] :
    DecidableEq (Except ε α) := fun a b =>
  match a, b with
  | .error e, .error f =>
    if h : e = f then .isTrue (by rw [h]) else .isFalse (by simp [h])
  | .error _, .ok _ => .isFalse (by simp)
  | .ok _, .error _ => .isFalse (by simp)
  | .ok a, .ok b =>
    if h : a = b then .isTrue (by rw [h]) else .isFalse (by simp [h])

/-- The error cases of `DecidingLog::processing_batch_request`. -/
inductive DecidingLogError where
  | requestNotInHashSpace
  | alreadyReceivedFromLeader
  deriving DecidableEq

/-- A stored wire message: its header plus the (opaque) consensus
payload, standing for `StoredMessage<ConsensusMessage<Request<S>>>`. -/
structure StoredMessage (M : Type) where
  header : Header
  message : M
  deriving DecidableEq

/-- The state of `DecidingLog<S>` (`bft/msg_log/deciding_log/mod.rs`),
generic over the stored payload type.  `BTreeSet`/`BTreeMap` are
modelled as a list (insertion order) and an association list. -/
structure DecidingLog (M : Type) where
  leader_set : List NodeId
  current_digest : Option Digest
  current_received_pre_prepares : Nat
  pre_prepare_ordering : List (Option Digest)
  pre_prepare_messages : List (Option (StoredMessage M))
  received_leader_messages : List NodeId
  request_space_slices : List (NodeId × Digest × Digest)
  current_requests : List Digest
  current_batch_size : Nat
  current_messages_to_persist : List Digest
  deriving DecidableEq

/-- Modelled from the spec: `crate::bft::sync::view::is_request_in_hash_space`
is not among the sources.  Per the spec, the digest space is split into
contiguous per-leader slices, so membership is containment in the
closed interval given by the slice bounds. -/
def is_request_in_hash_space (request : Digest) (slice : Digest × Digest) : Bool :=
  slice.1 ≤ request && request ≤ slice.2

/-- Collect a list of optional digests, short-circuiting on `none`
(the `?` inside `calculate_instance_digest`). -/
def collectDigests : List (Option Digest) → Option (List Digest)
  | [] => some []
  | none :: _ => none
  | some d :: rest => (collectDigests rest).map (d :: ·)

/-- `DecidingLog::calculate_instance_digest`: hash the ordering digests
in order, failing if any is missing.  The hash context is abstracted by
`hashFn`. -/
def calculate_instance_digest (hashFn : List Digest → Digest)
    (ordering : List (Option Digest)) : Option Digest :=
  (collectDigests ordering).map hashFn

/-- `DecidingLog::processing_batch_request(request_batch, digest,
batch_rq_digests)`.  The outer `Option` models the two panics of the
source (`.unwrap()` on a missing hash-space slice, `.expect` on a leader
absent from the leader set); the `Except` carries the `Err` returns,
each of which leaves the log unchanged. -/
def processing_batch_request {M : Type} (hashFn : List Digest → Digest)
    (log : DecidingLog M) (request_batch : StoredMessage M) (digest : Digest)
    (batch_rq_digests : List Digest) :
    Option (Except DecidingLogError (Option Digest) × DecidingLog M) :=
  let sending_leader := request_batch.header.hFrom
  match log.request_space_slices.lookup sending_leader with
  | none => none
  | some slice =>
    if ¬ batch_rq_digests.all (fun request => is_request_in_hash_space request slice) then
      some (.error .requestNotInHashSpace, log)
    else if sending_leader ∈ log.received_leader_messages then
      some (.error .alreadyReceivedFromLeader, log)
    else
      match log.leader_set.findIdx? (· == sending_leader) with
      | none => none
      | some leader_index =>
        let log := { log with
          received_leader_messages := log.received_leader_messages ++ [sending_leader]
          pre_prepare_ordering := log.pre_prepare_ordering.set leader_index (some digest)
          pre_prepare_messages := log.pre_prepare_messages.set leader_index (some request_batch)
          current_received_pre_prepares := log.current_received_pre_prepares + 1
          current_batch_size := log.current_batch_size + batch_rq_digests.length
          current_messages_to_persist :=
            log.current_messages_to_persist ++ [request_batch.header.hDigest] }
        if log.current_received_pre_prepares = log.leader_set.length then
          let d := calculate_instance_digest hashFn log.pre_prepare_ordering
          some (.ok d, { log with current_digest := d })
        else
          some (.ok none, log)

/-- The peers a node dials on startup:
`NodeId::targets_u32(0..n).filter(|id| id != my_id)` from
`Node::tx_side_connect_sync`. -/
def tx_side_connect_targets (n my_id : Nat) : List Nat :=
  (List.range n).filter (fun id => id ≠ my_id)

/-- `SECS` from `tx_side_connect_task_sync`: seconds slept between
connection attempts. -/
def SECS : Nat := 1

/-- `RETRY` from `tx_side_connect_task_sync`: 3 * 60 attempts. -/
def RETRY : Nat := 3 * 60

/-- Outcome of one iteration of the connection attempt loop: the TCP
connect fails (sleep `SECS` and retry), the connect succeeds but writing
or flushing the handshake header fails (`break`), or the connection is
fully established (`return`). -/
inductive ConnectAttempt where
  | connRefused
  | writeFailed
  | connected
  deriving DecidableEq

/-- Result of `tx_side_connect_task_sync` for one peer: the connection
was registered after attempt `t`, the loop broke on a write error at
attempt `t`, or the loop gave up after `tries` failed attempts. -/
inductive ConnectTaskResult where
  | established (t : Nat)
  | aborted (t : Nat)
  | gaveUp (tries : Nat)
  deriving DecidableEq

/-- The retry loop of `tx_side_connect_task_sync`, with the outcome of
each attempt supplied by the environment `attempts`. -/
def connect_task_loop (attempts : Nat → ConnectAttempt) :
    Nat → Nat → ConnectTaskResult
  | 0, t => .gaveUp t
  | fuel + 1, t =>
    match attempts t with
    | .connected => .established t
    | .writeFailed => .aborted t
    | .connRefused => connect_task_loop attempts fuel (t + 1)

/-- `tx_side_connect_task_sync`: try to connect up to `RETRY` times. -/
def tx_side_connect_task_sync (attempts : Nat → ConnectAttempt) :
    ConnectTaskResult :=
  connect_task_loop attempts RETRY 0

/-- Discriminant of a message kind, used to state that queueing into one
deque leaves the other two untouched. -/
def ConsensusMessageKind.tag : ConsensusMessageKind → Nat
  | .PrePrepare _ => 0
  | .Prepare => 1
  | .Commit => 2

/-- Vote-count invariant for the quorum claim: in `Preparing i` at least
`i` matching Prepares have been processed; in `Committing i` a full
prepare quorum was reached and at least `i` matching Commits processed. -/
def C1PhaseInv (view : ViewInfo) : ProtoPhase → Nat → Nat → Prop
  | .Preparing i, p, _ => i ≤ p
  | .Committing i, p, c => view.quorum ≤ p ∧ i ≤ c
  | _, _, _ => True

/-- Full invariant for the quorum claim: the instance's sequence number
is fixed and the phase counters are covered by processed matching
votes. -/
def C1Inv (view : ViewInfo) (seq : Int) (s : Consensus) (p c : Nat) : Prop :=
  s.tbo.curr_seq = seq ∧ C1PhaseInv view s.phase p c

/-- Broadcast-count invariant for the single-vote claim: before entering
`Preparing` no Prepare was broadcast; before `Committing` no Commit; and
never more than one of each. -/
def C3PhaseInv : ProtoPhase → Nat → Nat → Prop
  | .Init, p, c => p = 0 ∧ c = 0
  | .PrePreparing, p, c => p = 0 ∧ c = 0
  | .Preparing _, p, c => p ≤ 1 ∧ c = 0
  | .Committing _, p, c => p ≤ 1 ∧ c ≤ 1

/-! ## Helper lemmas -/

theorem wrap32_eq_self {z : Int} (h1 : -2 ^ 31 ≤ z) (h2 : z < 2 ^ 31) :
    wrap32 z = z := by
  unfold wrap32
  omega

theorem queue_message_of_none {period : Nat} {curr_seq : Int} {tbo : List TboSlot}
    {h : Header} {m : ConsensusMessage}
    (hi : SeqNo.index period m.seq curr_seq = none) :
    queue_message period curr_seq tbo h m = tbo := by
  simp [queue_message, hi]

theorem queue_message_of_some {period : Nat} {curr_seq : Int} {tbo : List TboSlot}
    {h : Header} {m : ConsensusMessage} {i : Nat}
    (hi : SeqNo.index period m.seq curr_seq = some i) :
    (queue_message period curr_seq tbo h m).getD i [] = tbo.getD i [] ++ [(h, m)]
    ∧ (∀ j, j ≠ i → (queue_message period curr_seq tbo h m).getD j [] = tbo.getD j [])
    ∧ (queue_message period curr_seq tbo h m).length = max tbo.length (i + 1) := by
  unfold queue_message
  rw [hi]
  simp only
  by_cases hlen : tbo.length ≤ i
  · simp only [if_pos hlen]
    have hgl : (tbo ++ List.replicate (i + 1 - tbo.length) ([] : TboSlot)).length
        = i + 1 := by
      simp
      omega
    have hgrow : ∀ j, (tbo ++ List.replicate (i + 1 - tbo.length) ([] : TboSlot)).getD j []
        = tbo.getD j [] := by
      intro j
      by_cases hj : j < tbo.length
      · simp [List.getD_eq_getElem?_getD, List.getElem?_append_left hj]
      · by_cases hj2 : j < i + 1
        · rw [List.getD_eq_getElem?_getD, List.getElem?_append_right (by omega),
            List.getElem?_replicate_of_lt (by omega)]
          rw [List.getD_eq_getElem?_getD, List.getElem?_eq_none (by omega)]
          rfl
        · rw [List.getD_eq_getElem?_getD, List.getElem?_eq_none (by rw [hgl]; omega)]
          rw [List.getD_eq_getElem?_getD, List.getElem?_eq_none (by omega)]
    refine ⟨?_, ?_, ?_⟩
    · rw [List.getD_eq_getElem?_getD, List.getElem?_set_self (by omega), Option.getD_some,
        hgrow i]
    · intro j hj
      rw [List.getD_eq_getElem?_getD, List.getElem?_set_ne (fun he => hj he.symm),
        ← List.getD_eq_getElem?_getD, hgrow j]
    · rw [List.length_set, hgl]
      omega
  · simp only [if_neg hlen]
    refine ⟨?_, ?_, ?_⟩
    · rw [List.getD_eq_getElem?_getD, List.getElem?_set_self (by omega), Option.getD_some]
    · intro j hj
      rw [List.getD_eq_getElem?_getD, List.getElem?_set_ne (fun he => hj he.symm),
        ← List.getD_eq_getElem?_getD]
    · rw [List.length_set]
      omega

theorem tbo_queue_deque_of_queue (period : Nat) (q : TBOQueue) (h : Header)
    (m : ConsensusMessage) :
    (q.queue period h m).deque_of m.kind
      = queue_message period q.curr_seq (q.deque_of m.kind) h m
    ∧ (∀ k, k.tag ≠ m.kind.tag → (q.queue period h m).deque_of k = q.deque_of k)
    ∧ (q.queue period h m).curr_seq = q.curr_seq
    ∧ (q.queue period h m).get_queue = q.get_queue := by
  cases hm : m.kind <;>
    refine ⟨by simp [TBOQueue.queue, TBOQueue.deque_of, hm], fun k hk => ?_,
      by simp [TBOQueue.queue, hm], by simp [TBOQueue.queue, hm]⟩ <;>
    cases k <;>
    simp_all [TBOQueue.queue, TBOQueue.deque_of, ConsensusMessageKind.tag]

theorem seqno_index_some_iff {period : Nat} {s b : Int} {i : Nat} :
    SeqNo.index period s b = some i ↔
      (0 ≤ SeqNo.normalizedIndex s b
        ∧ SeqNo.normalizedIndex s b ≤ DROP_SEQNO_THRES period
        ∧ (i : Int) = SeqNo.normalizedIndex s b) := by
  unfold SeqNo.index
  simp only
  split
  · next hc =>
    constructor
    · intro hcon
      cases hcon
    · intro ⟨h1, h2, _⟩
      omega
  · next hc =>
    push_neg at hc
    constructor
    · intro hsome
      have := Option.some.inj hsome
      refine ⟨hc.1, hc.2, ?_⟩
      rw [← this]
      exact Int.toNat_of_nonneg hc.1
    · intro ⟨_, _, h3⟩
      congr 1
      omega

theorem seqno_index_none_iff {period : Nat} {s b : Int} :
    SeqNo.index period s b = none ↔
      (SeqNo.normalizedIndex s b < 0
        ∨ DROP_SEQNO_THRES period < SeqNo.normalizedIndex s b) := by
  unfold SeqNo.index
  simp only
  split
  · next hc => simpa using hc
  · next hc =>
    push_neg at hc
    constructor
    · intro hcon
      cases hcon
    · intro h
      omega

theorem tbo_queue_of_none {period : Nat} {q : TBOQueue} {h : Header}
    {m : ConsensusMessage}
    (hi : SeqNo.index period m.seq q.curr_seq = none) :
    q.queue period h m = q := by
  cases hm : m.kind <;> simp [TBOQueue.queue, hm, queue_message_of_none hi]

theorem tbo_queue_curr_seq (period : Nat) (q : TBOQueue) (h : Header)
    (m : ConsensusMessage) : (q.queue period h m).curr_seq = q.curr_seq :=
  (tbo_queue_deque_of_queue period q h m).2.2.1

/-! ## Claim theorems -/

/-- C4: `queue(h, m)` computes `idx = index(m.seq, base)`, normalized
across 32-bit wrap; if `idx ∈ [0, high_water]` — with the high-water
mark `DROP_SEQNO_THRES` equal to 1.5x the checkpoint `PERIOD` — the pair
`(h, m)` is appended to the `idx`-th slot of the deque matching `m`'s
kind (growing the deque as needed, and leaving the other deques and
every other slot unchanged); otherwise (normalized index negative, or
above the high-water mark) the message is dropped and the queue is left
unchanged. -/
theorem c4_tbo_queue_spec (period : Nat) (q : TBOQueue) (h : Header)
    (m : ConsensusMessage)
    (hper : (period : Int) + ((period / 2 : Nat) : Int) < 2 ^ 31) :
    DROP_SEQNO_THRES period = (period : Int) + ((period / 2 : Nat) : Int)
    ∧ (∀ i, SeqNo.index period m.seq q.curr_seq = some i →
        ((i : Int) = SeqNo.normalizedIndex m.seq q.curr_seq
          ∧ (i : Int) ≤ DROP_SEQNO_THRES period
          ∧ ((q.queue period h m).deque_of m.kind).getD i []
              = (q.deque_of m.kind).getD i [] ++ [(h, m)]
          ∧ (∀ j, j ≠ i →
              ((q.queue period h m).deque_of m.kind).getD j []
                = (q.deque_of m.kind).getD j [])
          ∧ ((q.queue period h m).deque_of m.kind).length
              = max (q.deque_of m.kind).length (i + 1)
          ∧ (∀ k, k.tag ≠ m.kind.tag →
              (q.queue period h m).deque_of k = q.deque_of k)))
    ∧ (SeqNo.index period m.seq q.curr_seq = none ↔
        (SeqNo.normalizedIndex m.seq q.curr_seq < 0
          ∨ DROP_SEQNO_THRES period < SeqNo.normalizedIndex m.seq q.curr_seq))
    ∧ (SeqNo.index period m.seq q.curr_seq = none → q.queue period h m = q) := by
  have hthres : DROP_SEQNO_THRES period = (period : Int) + ((period / 2 : Nat) : Int) :=
    wrap32_eq_self (by omega) hper
  obtain ⟨hdeq, hother, _, _⟩ := tbo_queue_deque_of_queue period q h m
  refine ⟨hthres, ?_, seqno_index_none_iff, fun hi => tbo_queue_of_none hi⟩
  intro i hi
  obtain ⟨hpos, hle, heq⟩ := seqno_index_some_iff.mp hi
  obtain ⟨hslot, hrest, hlen⟩ :=
    @queue_message_of_some period q.curr_seq (q.deque_of m.kind) h m i hi
  exact ⟨heq, heq ▸ hle, hdeq ▸ hslot, fun j hj => hdeq ▸ hrest j hj,
    hdeq ▸ hlen, hother⟩

/-- C4 witness: a concrete in-range message lands in slot 0 of the
prepare deque. -/
theorem c4_tbo_queue_spec_witness :
    (((⟨0, false, [], [], []⟩ : TBOQueue).queue 100 ⟨2, 5⟩
        ⟨0, .Prepare⟩).deque_of .Prepare).getD 0 []
      = [(⟨2, 5⟩, ⟨0, .Prepare⟩)] := by
  have hth := c4_tbo_queue_spec 100 ⟨0, false, [], [], []⟩ ⟨2, 5⟩
    ⟨0, .Prepare⟩ (by decide)
  have hsome : SeqNo.index 100 (0 : Int) 0 = some 0 := by decide
  have hq := (hth.2.1 0 hsome).2.2.1
  simpa [TBOQueue.deque_of] using hq

/-- C5 counterexample: queueing the byte-identical message `(h, m)`
twice does not leave the queue identical to queueing it once — the slot
holds two copies. -/
theorem c5_tbo_queue_not_idempotent :
    TBOQueue.queue 100
        (TBOQueue.queue 100 ⟨0, false, [], [], []⟩ ⟨2, 5⟩ ⟨0, .Prepare⟩)
        ⟨2, 5⟩ ⟨0, .Prepare⟩
      ≠ TBOQueue.queue 100 ⟨0, false, [], [], []⟩ ⟨2, 5⟩ ⟨0, .Prepare⟩ := by
  decide

/-- C5 amended: `queue(h,m)` twice equals a single `queue(h,m)` exactly
when the message is dropped (out-of-range index); for an in-range
message the second call appends a second copy of `(h, m)` to the same
slot, so the two states differ. -/
theorem c5_tbo_queue_double_queue (period : Nat) (q : TBOQueue) (h : Header)
    (m : ConsensusMessage) :
    (SeqNo.index period m.seq q.curr_seq = none →
      (q.queue period h m).queue period h m = q.queue period h m)
    ∧ (∀ i, SeqNo.index period m.seq q.curr_seq = some i →
        ((((q.queue period h m).queue period h m).deque_of m.kind).getD i []
            = ((q.queue period h m).deque_of m.kind).getD i [] ++ [(h, m)]
          ∧ (q.queue period h m).queue period h m ≠ q.queue period h m)) := by
  have hcs : (q.queue period h m).curr_seq = q.curr_seq :=
    tbo_queue_curr_seq period q h m
  constructor
  · intro hi
    exact tbo_queue_of_none (by rw [hcs]; exact hi)
  · intro i hi
    have hi2 : SeqNo.index period m.seq (q.queue period h m).curr_seq = some i := by
      rw [hcs]; exact hi
    obtain ⟨hdeq2, _, _, _⟩ :=
      tbo_queue_deque_of_queue period (q.queue period h m) h m
    obtain ⟨hslot2, _, _⟩ :=
      @queue_message_of_some period (q.queue period h m).curr_seq
        ((q.queue period h m).deque_of m.kind) h m i hi2
    refine ⟨hdeq2 ▸ hslot2, fun heq => ?_⟩
    have hcg := congrArg (fun qq => (TBOQueue.deque_of qq m.kind).getD i []) heq
    simp only at hcg
    rw [hdeq2, hslot2] at hcg
    simp at hcg


/-- C5 witness: for a concrete in-range message the second `queue` call
appends a second copy to the same slot. -/
theorem c5_tbo_queue_double_queue_witness :
    ((((⟨0, false, [], [], []⟩ : TBOQueue).queue 100 ⟨2, 5⟩
          ⟨0, .Prepare⟩).queue 100 ⟨2, 5⟩ ⟨0, .Prepare⟩).deque_of .Prepare).getD 0 []
      = ((((⟨0, false, [], [], []⟩ : TBOQueue).queue 100 ⟨2, 5⟩
          ⟨0, .Prepare⟩).deque_of .Prepare).getD 0 []) ++ [(⟨2, 5⟩, ⟨0, .Prepare⟩)] :=
  ((c5_tbo_queue_double_queue 100 ⟨0, false, [], [], []⟩ ⟨2, 5⟩
      ⟨0, .Prepare⟩).2 0 (by decide)).1

/-- C8 counterexample: a non-leader in phase `Init` calling `propose`
broadcasts nothing but still has its phase switched to `PrePreparing`,
so the consensus state is not left unchanged. -/
theorem c8_propose_counterexample :
    ((⟨.Init, ⟨0, false, [], [], []⟩, 0⟩ : Consensus).propose 1 ⟨0, 4, 3⟩ 9).2 = []
    ∧ (1 : NodeId) ≠ (⟨0, 4, 3⟩ : ViewInfo).leader
    ∧ ((⟨.Init, ⟨0, false, [], [], []⟩, 0⟩ : Consensus).propose 1 ⟨0, 4, 3⟩ 9).1
        ≠ (⟨.Init, ⟨0, false, [], [], []⟩, 0⟩ : Consensus) := by
  decide

/-- C8 amended: `propose` never broadcasts a PrePrepare unless the node
is the view's leader and the phase is `Init`; with a phase other than
`Init` the call is a no-op, but a non-leader in `Init` still transitions
to `PrePreparing` (the phase is replaced before the leader check in the
source), broadcasting nothing. -/
theorem c8_propose_spec (myId : NodeId) (view : ViewInfo) (dig : Digest)
    (s : Consensus) :
    (s.phase ≠ .Init → s.propose myId view dig = (s, []))
    ∧ (myId ≠ view.leader → (s.propose myId view dig).2 = [])
    ∧ (myId ≠ view.leader → s.phase = .Init →
        (s.propose myId view dig).1 = { s with phase := .PrePreparing })
    ∧ (myId = view.leader → s.phase = .Init →
        s.propose myId view dig
          = ({ s with phase := .PrePreparing },
              [⟨s.tbo.curr_seq, .PrePrepare dig⟩]))
    ∧ ((s.propose myId view dig).2 ≠ [] → myId = view.leader ∧ s.phase = .Init) := by
  by_cases hl : myId = view.leader <;>
    cases hp : s.phase <;>
    simp [Consensus.propose, hp, hl]

/-- C8 witness: the leader in `Init` transitions to `PrePreparing` and
broadcasts the PrePrepare. -/
theorem c8_propose_spec_witness :
    (⟨.Init, ⟨0, false, [], [], []⟩, 0⟩ : Consensus).propose 0 ⟨0, 4, 3⟩ 9
      = (⟨.PrePreparing, ⟨0, false, [], [], []⟩, 0⟩, [⟨0, .PrePrepare 9⟩]) := by
  have hth := (c8_propose_spec 0 ⟨0, 4, 3⟩ 9
    ⟨.Init, ⟨0, false, [], [], []⟩, 0⟩).2.2.2.1 rfl rfl
  simpa using hth

/-- C2: the per-peer vote set is commented out in the source (the
`FIXME` above `process_message` acknowledges it), so a second `Prepare`
for the current `(view, seq)` from a peer that already voted is counted
again: from `Preparing(0)`, processing the same Prepare from the same
peer (node 2) twice advances the phase to `Preparing(2)`, and the
`VotedTwice` status is never returned. -/
theorem c2_double_vote_counted :
    (((⟨.Preparing 0, ⟨0, false, [], [], []⟩, 7⟩ : Consensus).process_message
          100 1 ⟨0, 4, 3⟩ (fun _ => true) ⟨2, 3⟩ ⟨0, .Prepare⟩).1.process_message
          100 1 ⟨0, 4, 3⟩ (fun _ => true) ⟨2, 3⟩ ⟨0, .Prepare⟩).1.phase
      = .Preparing 2 := by
  decide

/-- C10: `collect_requests` divides by `guard.len()` and draws from
`0..guard.len()` with no emptiness guard, so it is total only when the
pool's client list is non-empty: on an empty list it panics (modelled
`none`), and on any non-empty list the division and the random draw are
well-defined and execution proceeds into the collection loop. -/
theorem c10_collect_requests_totality :
    (∀ batch_size start_point,
        collect_requests batch_size start_point [] = none)
    ∧ (∀ batch_size start_point clients,
        (collect_requests batch_size start_point clients).isSome → clients ≠ [])
    ∧ (∀ batch_size start_point (clients : List ConnectedPeer), clients ≠ [] →
        collect_requests batch_size start_point clients
          = collect_loop (batch_size / clients.length) start_point
              clients.length 0 clients [] []
              (batch_size / clients.length + batch_size % clients.length)) := by
  refine ⟨fun b st => by simp [collect_requests], ?_, ?_⟩
  · intro b st clients hsome hnil
    subst hnil
    simp [collect_requests] at hsome
  · intro b st clients hne
    have hlen : clients.length ≠ 0 := fun hc => hne (List.length_eq_zero.mp hc)
    simp [collect_requests, hlen]

/-- C10 witness: the empty pool panics; a singleton pool proceeds into
the loop. -/
theorem c10_collect_requests_totality_witness :
    collect_requests 4 0 [] = none
    ∧ collect_requests 2 0 [⟨0, false, [10]⟩]
        = collect_loop 2 0 1 0 [⟨0, false, [10]⟩] [] [] 2 :=
  ⟨c10_collect_requests_totality.1 4 0,
    c10_collect_requests_totality.2.2 2 0 [⟨0, false, [10]⟩] (by decide)⟩

/-- C9 counterexample: on startup, replica 0 of a 4-node cluster dials
ids 1, 2 and 3 — the claim's target set (peers with id below its own)
would be empty. -/
theorem c9_connect_targets_counterexample :
    tx_side_connect_targets 4 0 = [1, 2, 3] ∧ ¬ ((1 : Nat) < 0) := by
  decide

/-- C9 amended: on startup each node issues outbound connection attempts
exactly to the ids in `0..n` other than its own (regardless of order
relative to its own id), and each per-peer attempt loop retries every
`SECS = 1` second up to `RETRY = 180` attempts before giving up on that
peer (establishing the connection, or failing to write the handshake
header, ends the loop early). -/
theorem c9_connect_spec :
    (∀ n my_id id, id ∈ tx_side_connect_targets n my_id ↔ (id < n ∧ id ≠ my_id))
    ∧ RETRY = 180
    ∧ SECS = 1
    ∧ (∀ attempts : Nat → ConnectAttempt,
        (∀ t, t < RETRY → attempts t = .connRefused) →
          tx_side_connect_task_sync attempts = .gaveUp RETRY)
    ∧ (∀ (attempts : Nat → ConnectAttempt) (k : Nat), k < RETRY →
        attempts k = .connected →
        (∀ t, t < k → attempts t = .connRefused) →
          tx_side_connect_task_sync attempts = .established k) := by
  have hloop_gaveup : ∀ (attempts : Nat → ConnectAttempt) (fuel t : Nat),
      (∀ u, t ≤ u → u < t + fuel → attempts u = .connRefused) →
        connect_task_loop attempts fuel t = .gaveUp (t + fuel) := by
    intro attempts fuel
    induction fuel with
    | zero => intro t _; simp [connect_task_loop]
    | succ n ih =>
      intro t hall
      have ht : attempts t = .connRefused := hall t Nat.le.refl (by omega)
      have := ih (t + 1) (fun u hu1 hu2 => hall u (by omega) (by omega))
      simp only [connect_task_loop, ht]
      rw [this]
      congr 1
      omega
  have hloop_est : ∀ (attempts : Nat → ConnectAttempt) (fuel t k : Nat),
      t ≤ k → k < t + fuel → attempts k = .connected →
      (∀ u, t ≤ u → u < k → attempts u = .connRefused) →
        connect_task_loop attempts fuel t = .established k := by
    intro attempts fuel
    induction fuel with
    | zero => intro t k h1 h2; omega
    | succ n ih =>
      intro t k h1 h2 hk hbefore
      by_cases htk : t = k
      · subst htk
        simp [connect_task_loop, hk]
      · have ht : attempts t = .connRefused := hbefore t Nat.le.refl (by omega)
        simp only [connect_task_loop, ht]
        exact ih (t + 1) k (by omega) (by omega) hk
          (fun u hu1 hu2 => hbefore u (by omega) hu2)
  refine ⟨?_, rfl, rfl, ?_, ?_⟩
  · intro n my_id id
    simp [tx_side_connect_targets, List.mem_filter, List.mem_range]
  · intro attempts hall
    exact hloop_gaveup attempts RETRY 0 (fun u _ hu => hall u (by omega))
  · intro attempts k hk hconn hbefore
    exact hloop_est attempts RETRY 0 k (by omega) (by omega) hconn
      (fun u _ hu => hbefore u hu)

/-- C9 witness: with every attempt refused the task gives up after
`RETRY` tries, and id 1 is among replica 0's dial targets in a 4-node
cluster. -/
theorem c9_connect_spec_witness :
    tx_side_connect_task_sync (fun _ => .connRefused) = .gaveUp RETRY
    ∧ (1 ∈ tx_side_connect_targets 4 0 ↔ (1 < 4 ∧ 1 ≠ 0)) :=
  ⟨c9_connect_spec.2.2.2.1 _ (fun _ _ => rfl), c9_connect_spec.1 4 0 1⟩


/-- C7: `processing_batch_request` returns an error when some request
digest of the batch lies outside the sending leader's registered
hash-space slice, or when that leader has already contributed a
pre-prepare to this instance; in both error cases the deciding log is
returned unchanged.  On success the batch is recorded in the sending
leader's slot (ordering digest and message) and the wire digest of the
pre-prepare is appended to the messages-to-persist set. -/
theorem c7_processing_batch_request_spec {M : Type}
    (hashFn : List Digest → Digest) (log : DecidingLog M)
    (request_batch : StoredMessage M) (digest : Digest)
    (batch_rq_digests : List Digest) (slice : Digest × Digest)
    (hslice : log.request_space_slices.lookup request_batch.header.hFrom
      = some slice) :
    ((∃ r ∈ batch_rq_digests, is_request_in_hash_space r slice = false) →
        processing_batch_request hashFn log request_batch digest batch_rq_digests
          = some (.error .requestNotInHashSpace, log))
    ∧ ((∀ r ∈ batch_rq_digests, is_request_in_hash_space r slice = true) →
        request_batch.header.hFrom ∈ log.received_leader_messages →
        processing_batch_request hashFn log request_batch digest batch_rq_digests
          = some (.error .alreadyReceivedFromLeader, log))
    ∧ (∀ leader_index,
        (∀ r ∈ batch_rq_digests, is_request_in_hash_space r slice = true) →
        request_batch.header.hFrom ∉ log.received_leader_messages →
        log.leader_set.findIdx? (· == request_batch.header.hFrom)
          = some leader_index →
        ∀ ret log',
          processing_batch_request hashFn log request_batch digest batch_rq_digests
            = some (ret, log') →
          (∃ d, ret = .ok d)
          ∧ log'.pre_prepare_ordering
              = log.pre_prepare_ordering.set leader_index (some digest)
          ∧ log'.pre_prepare_messages
              = log.pre_prepare_messages.set leader_index (some request_batch)
          ∧ log'.current_messages_to_persist
              = log.current_messages_to_persist ++ [request_batch.header.hDigest]
          ∧ log'.received_leader_messages
              = log.received_leader_messages ++ [request_batch.header.hFrom]
          ∧ log'.current_batch_size
              = log.current_batch_size + batch_rq_digests.length
          ∧ log'.current_received_pre_prepares
              = log.current_received_pre_prepares + 1) := by
  refine ⟨?_, ?_, ?_⟩
  · intro ⟨r, hr, hf⟩
    have hall : ¬ batch_rq_digests.all
        (fun request => is_request_in_hash_space request slice) = true := by
      simp only [List.all_eq_true]
      intro hc
      have := hc r hr
      rw [hf] at this
      cases this
    simp [processing_batch_request, hslice, hall]
  · intro hall hmem
    have hall2 : batch_rq_digests.all
        (fun request => is_request_in_hash_space request slice) = true := by
      simp only [List.all_eq_true]
      exact hall
    simp [processing_batch_request, hslice, hall2, hmem]
  · intro leader_index hall hnmem hfind ret log' heq
    have hall2 : batch_rq_digests.all
        (fun request => is_request_in_hash_space request slice) = true := by
      simp only [List.all_eq_true]
      exact hall
    simp only [processing_batch_request, hslice] at heq
    rw [if_neg (by simp [hall2]), if_neg hnmem, hfind] at heq
    simp only at heq
    split at heq <;>
      (have hpair := Option.some.inj heq
       have h1 := congrArg Prod.fst hpair
       have h2 := congrArg Prod.snd hpair
       simp only at h1 h2
       subst h2
       exact ⟨⟨_, h1.symm⟩, by simp⟩)

/-- C7 witness: a one-leader log accepts a valid batch, records it in
the leader slot and registers its wire digest for persistence. -/
theorem c7_processing_batch_request_spec_witness :
    (processing_batch_request (fun l => l.sum)
        (⟨[5], none, 0, [none], [none], [], [(5, 0, 100)], [], 0, []⟩
          : DecidingLog Nat)
        ⟨⟨5, 77⟩, 42⟩ 9 [3, 4]).map
          (fun p => p.2.current_messages_to_persist)
      = some [77] := by
  have hth := (c7_processing_batch_request_spec (fun l => l.sum)
      (⟨[5], none, 0, [none], [none], [], [(5, 0, 100)], [], 0, []⟩
        : DecidingLog Nat)
      ⟨⟨5, 77⟩, 42⟩ 9 [3, 4] (0, 100) rfl).2.2 0
      (by decide) (by decide) rfl
  cases heval : processing_batch_request (fun l => l.sum)
      (⟨[5], none, 0, [none], [none], [], [(5, 0, 100)], [], 0, []⟩
        : DecidingLog Nat)
      ⟨⟨5, 77⟩, 42⟩ 9 [3, 4] with
  | none => exact absurd heval (by decide)
  | some p =>
    obtain ⟨_, _, _, hpersist, _⟩ := hth p.1 p.2 (by rw [heval])
    simp [hpersist]



theorem collect_loop_succ_live (per start n index : Nat)
    (clients : List ConnectedPeer) (dced batch : List Nat) (next : Nat)
    (hlen0 : ¬ clients.length = 0)
    (hdcf : (clients.getD ((start + index) % clients.length)
      ⟨0, false, []⟩).dc = false) :
    collect_loop per start (n + 1) index clients dced batch next
      = collect_loop per start n (index + 1)
          (clients.set ((start + index) % clients.length)
            { clients.getD ((start + index) % clients.length) ⟨0, false, []⟩ with
              queue := (clients.getD ((start + index) % clients.length)
                ⟨0, false, []⟩).queue.drop next })
          dced
          (batch ++ (clients.getD ((start + index) % clients.length)
            ⟨0, false, []⟩).queue.take next)
          (next - ((clients.getD ((start + index) % clients.length)
            ⟨0, false, []⟩).queue.take next).length + per) := by
  simp only [collect_loop, if_neg hlen0, hdcf, ConnectedPeer.dump_n_requests,
    Bool.false_eq_true, if_false]


theorem mod_ne_of_lt_of_lt {k0 i j : Nat} (start : Nat) (hij : i < j)
    (hjk : j < k0) : (start + i) % k0 ≠ (start + j) % k0 := by
  intro hmod
  have hdvd : k0 ∣ (start + j) - (start + i) :=
    (Nat.modEq_iff_dvd' (by omega)).mp hmod
  have hsub : (start + j) - (start + i) = j - i := by omega
  rw [hsub] at hdvd
  have := Nat.le_of_dvd (by omega) hdvd
  omega

theorem collect_loop_full_supply (per rem start k0 : Nat) :
    ∀ (fuel index : Nat) (clients : List ConnectedPeer)
      (dced batch : List Nat) (next : Nat),
      clients.length = k0 → 0 < k0 → fuel + index = k0 →
      (∀ c ∈ clients, c.dc = false) →
      next ≤ per + rem →
      (∀ j, index ≤ j → j < k0 →
        per + rem ≤ ((clients.getD ((start + j) % k0) ⟨0, false, []⟩).queue).length) →
      ∃ batch' clients',
        collect_loop per start fuel index clients dced batch next
            = some (batch', clients', dced)
          ∧ batch'.length
              = batch.length + (if fuel = 0 then 0 else next + per * (fuel - 1)) := by
  intro fuel
  induction fuel with
  | zero =>
    intro index clients dced batch next _ _ _ _ _ _
    exact ⟨batch, clients, rfl, by simp⟩
  | succ n ih =>
    intro index clients dced batch next hlen hk0 hfi hdc hnext hsupply
    subst hlen
    have hlen0 : ¬ clients.length = 0 := by omega
    have hposlt : (start + index) % clients.length < clients.length :=
      Nat.mod_lt _ hk0
    have hmem : clients.getD ((start + index) % clients.length) ⟨0, false, []⟩
        ∈ clients := by
      rw [List.getD_eq_getElem _ _ hposlt]
      exact List.getElem_mem hposlt
    have hdcfalse := hdc _ hmem
    have hq := hsupply index (Nat.le_refl index) (by omega)
    have htake : ((clients.getD ((start + index) % clients.length)
        ⟨0, false, []⟩).queue.take next).length = next := by
      rw [List.length_take]
      omega
    rw [collect_loop_succ_live per start n index clients dced batch next
      hlen0 hdcfalse]
    obtain ⟨batch', clients', hrun, hblen⟩ := ih (index + 1)
      (clients.set ((start + index) % clients.length)
        { clients.getD ((start + index) % clients.length) ⟨0, false, []⟩ with
          queue := (clients.getD ((start + index) % clients.length)
            ⟨0, false, []⟩).queue.drop next })
      dced
      (batch ++ (clients.getD ((start + index) % clients.length)
        ⟨0, false, []⟩).queue.take next)
      (next - ((clients.getD ((start + index) % clients.length)
        ⟨0, false, []⟩).queue.take next).length + per)
      (by rw [List.length_set])
      hk0
      (by omega)
      (by
        intro c hc
        rcases List.mem_or_eq_of_mem_set hc with hc2 | hc2
        · exact hdc c hc2
        · rw [hc2]; exact hdcfalse)
      (by rw [htake]; omega)
      (by
        intro j hj1 hj2
        have hne : (start + j) % clients.length
            ≠ (start + index) % clients.length :=
          fun he => mod_ne_of_lt_of_lt start (by omega) hj2 he.symm
        rw [List.getD_eq_getElem?_getD, List.getElem?_set_ne (fun he => hne he.symm),
          ← List.getD_eq_getElem?_getD]
        exact hsupply j (by omega) hj2)
    refine ⟨batch', clients', hrun, ?_⟩
    rcases Nat.eq_zero_or_pos n with hn | hn
    · subst hn
      rw [if_pos rfl] at hblen
      rw [hblen, List.length_append, htake]
      simp
    · rw [if_neg (by omega)] at hblen
      rw [List.length_append, htake] at hblen
      rw [hblen, if_neg (Nat.succ_ne_zero n), Nat.add_sub_cancel]
      have hmul : per * n = per * (n - 1) + per := by
        conv_lhs => rw [← Nat.sub_add_cancel hn]
        exact Nat.mul_succ _ _
      omega

/-- C6 counterexample: a pool of two live clients whose queues together
hold 2 requests (both on the first-visited client) yields a batch of
only 1 request for `batch_size = 2`, although the aggregate supply
equals the batch size: allowance unused by a later client never flows
back to an earlier one. -/
theorem c6_collect_requests_underfill :
    ((collect_requests 2 0 [⟨0, false, [10, 11]⟩, ⟨1, false, []⟩]).map
        (fun out => out.1.length)) = some 1
    ∧ (([⟨0, false, [10, 11]⟩, ⟨1, false, []⟩] : List ConnectedPeer).map
        (fun c => c.queue.length)).sum = 2
    ∧ (([⟨0, false, [10, 11]⟩, ⟨1, false, []⟩] : List ConnectedPeer).all
        (fun c => !c.dc)) = true
    ∧ (1 : Nat) ≠ 2 := by
  decide

/-- C6 amended: one batch-building pass over a non-empty pool of live
clients returns a batch of exactly `B` requests provided every client's
queue holds at least `B / k + B % k` requests (`k` the number of live
clients in the pool); aggregate supply ≥ `B` alone does not suffice,
because each client is allowed only `B / k` requests plus the slack
carried forward from clients visited earlier in the circular walk, and
unused capacity of already-visited clients is never revisited. -/
theorem c6_collect_requests_fills (B start : Nat)
    (clients : List ConnectedPeer)
    (hne : clients ≠ [])
    (_hstart : start < clients.length)
    (hlive : ∀ c ∈ clients, c.dc = false)
    (hsupply : ∀ c ∈ clients,
      B / clients.length + B % clients.length ≤ c.queue.length) :
    ∃ batch clients',
      collect_requests B start clients = some (batch, clients', [])
        ∧ batch.length = B := by
  have hk0 : 0 < clients.length := List.length_pos.mpr hne
  have hlen0 : ¬ clients.length = 0 := by omega
  obtain ⟨batch, clients', hrun, hblen⟩ :=
    collect_loop_full_supply (B / clients.length) (B % clients.length) start
      clients.length clients.length 0 clients [] []
      (B / clients.length + B % clients.length)
      rfl hk0 (by omega) hlive (Nat.le_refl _)
      (by
        intro j _ hj
        have hposlt : (start + j) % clients.length < clients.length :=
          Nat.mod_lt _ hk0
        refine hsupply _ ?_
        rw [List.getD_eq_getElem _ _ hposlt]
        exact List.getElem_mem hposlt)
  refine ⟨batch, clients', ?_, ?_⟩
  · rw [collect_requests, if_neg hlen0]
    exact hrun
  · rw [hblen, if_neg hlen0]
    simp only [List.length_nil, Nat.zero_add]
    have hdm := Nat.div_add_mod B clients.length
    have hmul : B / clients.length * (clients.length - 1 + 1)
        = B / clients.length * (clients.length - 1) + B / clients.length :=
      Nat.mul_succ _ _
    have hk1 : clients.length - 1 + 1 = clients.length := by omega
    rw [hk1] at hmul
    rw [Nat.mul_comm] at hdm
    omega

/-- C6 witness: a pool of two live clients, each holding 2 requests,
fills a batch of 4 exactly. -/
theorem c6_collect_requests_fills_witness :
    (collect_requests 4 1 [⟨0, false, [10, 11]⟩, ⟨1, false, [20, 21]⟩]).map
        (fun out => out.1.length)
      = some 4 := by
  obtain ⟨batch, clients', hrun, hblen⟩ :=
    c6_collect_requests_fills 4 1
      [⟨0, false, [10, 11]⟩, ⟨1, false, [20, 21]⟩]
      (by decide) (by decide) (by decide) (by decide)
  rw [hrun]
  simp [hblen]


theorem process_message_tbo_curr_seq (period : Nat) (myId : NodeId)
    (view : ViewInfo) (hr : Digest → Bool) (s : Consensus) (header : Header)
    (m : ConsensusMessage) :
    (s.process_message period myId view hr header m).1.tbo.curr_seq
      = s.tbo.curr_seq := by
  cases hp : s.phase <;> cases hk : m.kind <;>
    simp only [Consensus.process_message, hp, hk, Consensus.queue_pre_prepare,
      Consensus.queue_prepare, Consensus.queue_commit] <;>
    split <;>
    (try split) <;>
    (try split) <;>
    first
    | rfl
    | simp [tbo_queue_curr_seq]

theorem process_message_cases (period : Nat) (myId : NodeId) (view : ViewInfo)
    (hr : Digest → Bool) (s : Consensus) (header : Header) (m : ConsensusMessage) :
    ((s.process_message period myId view hr header m).1.phase = s.phase
       ∧ (s.process_message period myId view hr header m).2.2 = []
       ∧ (s.process_message period myId view hr header m).2.1 = .Deciding)
    ∨ (s.phase = .PrePreparing
       ∧ m.seq = s.tbo.curr_seq
       ∧ (s.process_message period myId view hr header m).1.phase = .Preparing 0
       ∧ (s.process_message period myId view hr header m).2.1 = .Deciding
       ∧ ((s.process_message period myId view hr header m).2.2 = []
          ∨ (s.process_message period myId view hr header m).2.2
              = [⟨s.tbo.curr_seq, .Prepare⟩]))
    ∨ (∃ i, s.phase = .Preparing i
       ∧ m.kind = .Prepare ∧ m.seq = s.tbo.curr_seq
       ∧ (s.process_message period myId view hr header m).2.1 = .Deciding
       ∧ ((i + 1 ≠ view.quorum
            ∧ (s.process_message period myId view hr header m).1.phase
                = .Preparing (i + 1)
            ∧ (s.process_message period myId view hr header m).2.2 = [])
          ∨ (i + 1 = view.quorum
            ∧ (s.process_message period myId view hr header m).1.phase
                = .Committing 0
            ∧ (s.process_message period myId view hr header m).2.2
                = [⟨s.tbo.curr_seq, .Commit⟩])))
    ∨ (∃ i, s.phase = .Committing i
       ∧ m.kind = .Commit ∧ m.seq = s.tbo.curr_seq
       ∧ (s.process_message period myId view hr header m).2.2 = []
       ∧ ((i + 1 ≠ view.quorum
            ∧ (s.process_message period myId view hr header m).1.phase
                = .Committing (i + 1)
            ∧ (s.process_message period myId view hr header m).2.1 = .Deciding)
          ∨ (i + 1 = view.quorum
            ∧ (s.process_message period myId view hr header m).1.phase = .Init
            ∧ (s.process_message period myId view hr header m).2.1
                = .Decided s.current))) := by
  cases hp : s.phase with
  | Init =>
    left
    cases hk : m.kind <;>
      simp [Consensus.process_message, hp, hk, Consensus.queue_pre_prepare,
        Consensus.queue_prepare, Consensus.queue_commit]
  | PrePreparing =>
    cases hk : m.kind with
    | PrePrepare dig =>
      by_cases hs : m.seq = s.tbo.curr_seq
      · right; left
        refine ⟨rfl, hs, ?_, ?_, ?_⟩ <;>
          by_cases hl : myId = view.leader <;>
          simp [Consensus.process_message, hp, hk, hs, hl]
      · left
        simp [Consensus.process_message, hp, hk, hs, Consensus.queue_pre_prepare]
    | Prepare =>
      left
      simp [Consensus.process_message, hp, hk, Consensus.queue_prepare]
    | Commit =>
      left
      simp [Consensus.process_message, hp, hk, Consensus.queue_commit]
  | Preparing i =>
    cases hk : m.kind with
    | PrePrepare dig =>
      left
      simp [Consensus.process_message, hp, hk, Consensus.queue_pre_prepare]
    | Prepare =>
      by_cases hs : m.seq = s.tbo.curr_seq
      · by_cases hg : ¬myId = view.leader ∧ hr s.current = false
        · left
          refine ⟨?_, ?_, ?_⟩ <;>
            simp [Consensus.process_message, hp, hk, hs, hg]
        · by_cases hq : i + 1 = view.quorum
          · right; right; left
            refine ⟨i, rfl, rfl, hs, ?_, Or.inr ⟨hq, ?_, ?_⟩⟩ <;>
              simp [Consensus.process_message, hp, hk, hs, hg, hq]
          · right; right; left
            refine ⟨i, rfl, rfl, hs, ?_, Or.inl ⟨hq, ?_, ?_⟩⟩ <;>
              simp [Consensus.process_message, hp, hk, hs, hg, hq]
      · left
        simp [Consensus.process_message, hp, hk, hs, Consensus.queue_prepare]
    | Commit =>
      left
      simp [Consensus.process_message, hp, hk, Consensus.queue_commit]
  | Committing i =>
    cases hk : m.kind with
    | PrePrepare dig =>
      left
      simp [Consensus.process_message, hp, hk, Consensus.queue_pre_prepare]
    | Prepare =>
      left
      simp [Consensus.process_message, hp, hk, Consensus.queue_prepare]
    | Commit =>
      by_cases hs : m.seq = s.tbo.curr_seq
      · by_cases hq : i + 1 = view.quorum
        · right; right; right
          refine ⟨i, rfl, rfl, hs, ?_, Or.inr ⟨hq, ?_, ?_⟩⟩ <;>
            simp [Consensus.process_message, hp, hk, hs, hq]
        · right; right; right
          refine ⟨i, rfl, rfl, hs, ?_, Or.inl ⟨hq, ?_, ?_⟩⟩ <;>
            simp [Consensus.process_message, hp, hk, hs, hq]
      · left
        simp [Consensus.process_message, hp, hk, hs, Consensus.queue_commit]


theorem propose_frame (myId : NodeId) (view : ViewInfo) (dig : Digest)
    (s : Consensus) :
    ((s.propose myId view dig).1.phase = s.phase
      ∨ (s.phase = .Init ∧ (s.propose myId view dig).1.phase = .PrePreparing))
    ∧ (s.propose myId view dig).1.tbo = s.tbo
    ∧ countBroadcasts .Prepare (s.propose myId view dig).2 = 0
    ∧ countBroadcasts .Commit (s.propose myId view dig).2 = 0 := by
  cases hp : s.phase <;> by_cases hl : myId = view.leader <;>
    simp [Consensus.propose, hp, hl, countBroadcasts]

theorem poll_frame (hr : Digest → Bool) (s : Consensus) :
    ((s.poll hr).1.phase = s.phase
      ∨ (s.phase = .Init ∧ (s.poll hr).1.phase = .PrePreparing))
    ∧ (s.poll hr).1.tbo.curr_seq = s.tbo.curr_seq := by
  cases hp : s.phase <;>
    refine ⟨?_, ?_⟩ <;>
    simp only [Consensus.poll, hp] <;>
    (try split) <;> (try split) <;> (try split) <;>
    simp [hp]

theorem consensusRun_cons (period : Nat) (myId : NodeId) (view : ViewInfo)
    (s : Consensus) (e : ConsensusEvent) (es : List ConsensusEvent) :
    consensusRun period myId view s (e :: es)
      = ((consensusRun period myId view
            (consensusStep period myId view s e).1 es).1,
         (consensusStep period myId view s e).2.1
            :: (consensusRun period myId view
                  (consensusStep period myId view s e).1 es).2.1,
         (consensusStep period myId view s e).2.2
            ++ (consensusRun period myId view
                  (consensusStep period myId view s e).1 es).2.2) := by
  rfl

theorem countMatchingPrepares_cons (seq : Int) (e : ConsensusEvent)
    (es : List ConsensusEvent) :
    countMatchingPrepares seq (e :: es)
      = countMatchingPrepares seq [e] + countMatchingPrepares seq es := by
  simp only [countMatchingPrepares, List.countP_cons, List.countP_nil]
  omega

theorem countMatchingCommits_cons (seq : Int) (e : ConsensusEvent)
    (es : List ConsensusEvent) :
    countMatchingCommits seq (e :: es)
      = countMatchingCommits seq [e] + countMatchingCommits seq es := by
  simp only [countMatchingCommits, List.countP_cons, List.countP_nil]
  omega

theorem c1_phase_inv_mono {view : ViewInfo} {ph : ProtoPhase} {p c p' c' : Nat}
    (h : C1PhaseInv view ph p c) (hp : p ≤ p') (hc : c ≤ c') :
    C1PhaseInv view ph p' c' := by
  cases ph <;> simp only [C1PhaseInv] at h ⊢ <;> omega

theorem c1_inv_step (period : Nat) (myId : NodeId) (view : ViewInfo) (seq : Int)
    (s : Consensus) (p c : Nat) (e : ConsensusEvent)
    (hinv : C1Inv view seq s p c) :
    C1Inv view seq (consensusStep period myId view s e).1
        (p + countMatchingPrepares seq [e]) (c + countMatchingCommits seq [e])
    ∧ (∀ d, (consensusStep period myId view s e).2.1 = some (.Decided d) →
        view.quorum ≤ p + countMatchingPrepares seq [e]
          ∧ view.quorum ≤ c + countMatchingCommits seq [e]) := by
  obtain ⟨hseq, hphinv⟩ := hinv
  cases e with
  | proposal dig =>
    obtain ⟨hor, htbo, _, _⟩ := propose_frame myId view dig s
    have hcp : countMatchingPrepares seq [ConsensusEvent.proposal dig] = 0 := by
      simp [countMatchingPrepares]
    have hcc : countMatchingCommits seq [ConsensusEvent.proposal dig] = 0 := by
      simp [countMatchingCommits]
    rw [hcp, hcc]
    refine ⟨⟨?_, ?_⟩, ?_⟩
    · show (s.propose myId view dig).1.tbo.curr_seq = seq
      rw [htbo]
      exact hseq
    · show C1PhaseInv view (s.propose myId view dig).1.phase (p + 0) (c + 0)
      rcases hor with h | ⟨_, h⟩
      · rw [h]
        exact c1_phase_inv_mono hphinv (by omega) (by omega)
      · rw [h]
        simp [C1PhaseInv]
    · intro d hd
      simp [consensusStep] at hd
  | polled hr =>
    obtain ⟨hor, hcs⟩ := poll_frame hr s
    have hcp : countMatchingPrepares seq [ConsensusEvent.polled hr] = 0 := by
      simp [countMatchingPrepares]
    have hcc : countMatchingCommits seq [ConsensusEvent.polled hr] = 0 := by
      simp [countMatchingCommits]
    rw [hcp, hcc]
    refine ⟨⟨?_, ?_⟩, ?_⟩
    · show (s.poll hr).1.tbo.curr_seq = seq
      rw [hcs]
      exact hseq
    · show C1PhaseInv view (s.poll hr).1.phase (p + 0) (c + 0)
      rcases hor with h | ⟨_, h⟩
      · rw [h]
        exact c1_phase_inv_mono hphinv (by omega) (by omega)
      · rw [h]
        simp [C1PhaseInv]
    · intro d hd
      simp [consensusStep] at hd
  | incoming hr header m =>
    have hstep : (consensusStep period myId view s (.incoming hr header m))
        = ((s.process_message period myId view hr header m).1,
           some (s.process_message period myId view hr header m).2.1,
           (s.process_message period myId view hr header m).2.2) := rfl
    have hcseq : (s.process_message period myId view hr header m).1.tbo.curr_seq
        = seq := by
      rw [process_message_tbo_curr_seq]
      exact hseq
    rw [hstep]
    rcases process_message_cases period myId view hr s header m with
      ⟨hph, _, hst⟩ | ⟨hph, hms, hph2, hst, _⟩ |
      ⟨i, hph, hkind, hms, hst, hsub⟩ | ⟨i, hph, hkind, hms, _, hsub⟩
    · refine ⟨⟨hcseq, ?_⟩, ?_⟩
      · rw [hph]
        exact c1_phase_inv_mono hphinv (by omega) (by omega)
      · intro d hd
        rw [hst] at hd
        simp at hd
    · refine ⟨⟨hcseq, ?_⟩, ?_⟩
      · rw [hph2]
        simp [C1PhaseInv]
      · intro d hd
        rw [hst] at hd
        simp at hd
    · have hcp : countMatchingPrepares seq [ConsensusEvent.incoming hr header m]
          = 1 := by
        simp [countMatchingPrepares, hkind, hms, hseq]
      rw [hph] at hphinv
      simp only [C1PhaseInv] at hphinv
      rcases hsub with ⟨_, hph2, _⟩ | ⟨hq, hph2, _⟩
      · refine ⟨⟨hcseq, ?_⟩, ?_⟩
        · rw [hph2]
          simp only [C1PhaseInv]
          omega
        · intro d hd
          rw [hst] at hd
          simp at hd
      · refine ⟨⟨hcseq, ?_⟩, ?_⟩
        · rw [hph2]
          simp only [C1PhaseInv]
          omega
        · intro d hd
          rw [hst] at hd
          simp at hd
    · have hcc : countMatchingCommits seq [ConsensusEvent.incoming hr header m]
          = 1 := by
        simp [countMatchingCommits, hkind, hms, hseq]
      have hcp0 : countMatchingPrepares seq [ConsensusEvent.incoming hr header m]
          = 0 := by
        simp [countMatchingPrepares, hkind]
      rw [hph] at hphinv
      simp only [C1PhaseInv] at hphinv
      rcases hsub with ⟨_, hph2, hst⟩ | ⟨hq, hph2, hst⟩
      · refine ⟨⟨hcseq, ?_⟩, ?_⟩
        · rw [hph2]
          simp only [C1PhaseInv]
          omega
        · intro d hd
          rw [hst] at hd
          simp at hd
      · refine ⟨⟨hcseq, ?_⟩, ?_⟩
        · rw [hph2]
          simp [C1PhaseInv]
        · intro d _
          omega

theorem c1_run_lemma (period : Nat) (myId : NodeId) (view : ViewInfo)
    (seq : Int) :
    ∀ (events : List ConsensusEvent) (s : Consensus) (p c : Nat),
      C1Inv view seq s p c →
      ∀ d, some (.Decided d) ∈ (consensusRun period myId view s events).2.1 →
        view.quorum ≤ p + countMatchingPrepares seq events
          ∧ view.quorum ≤ c + countMatchingCommits seq events := by
  intro events
  induction events with
  | nil =>
    intro s p c _ d hd
    simp [consensusRun] at hd
  | cons e es ih =>
    intro s p c hinv d hd
    obtain ⟨hinv2, hdec⟩ := c1_inv_step period myId view seq s p c e hinv
    rw [consensusRun_cons] at hd
    rw [countMatchingPrepares_cons, countMatchingCommits_cons]
    rcases List.mem_cons.mp hd with hd0 | hdrest
    · have hle := hdec d hd0.symm
      have h1 : 0 ≤ countMatchingPrepares seq es := Nat.zero_le _
      have h2 : 0 ≤ countMatchingCommits seq es := Nat.zero_le _
      omega
    · have hle := ih (consensusStep period myId view s e).1
        (p + countMatchingPrepares seq [e])
        (c + countMatchingCommits seq [e]) hinv2 d hdrest
      omega


/-- C1: the consensus state machine returns `Decided` only after having
counted `quorum` matching Prepares and `quorum` matching Commits — where
a vote matches when it agrees with the instance's fixed `(view, seq,
batch_digest)` context: in this message schema a `Prepare`/`Commit`
carries only its sequence number (no view field and no digest field), so
agreement degenerates to agreement on the sequence number, which is
checked; a Prepare or Commit whose sequence number differs from the
instance's current one is never counted (the phase, and in particular
its vote counter, is left unchanged). -/
theorem c1_decided_only_after_quorums (period : Nat) (myId : NodeId)
    (view : ViewInfo) (seq : Int) :
    (∀ (events : List ConsensusEvent) (s : Consensus),
        s.phase = .Init → s.tbo.curr_seq = seq →
        ∀ d, some (.Decided d) ∈ (consensusRun period myId view s events).2.1 →
          view.quorum ≤ countMatchingPrepares seq events
            ∧ view.quorum ≤ countMatchingCommits seq events)
    ∧ (∀ (hr : Digest → Bool) (s : Consensus) (header : Header)
          (m : ConsensusMessage),
        m.seq ≠ s.tbo.curr_seq →
          (s.process_message period myId view hr header m).1.phase = s.phase
            ∧ (s.process_message period myId view hr header m).2.1
                = .Deciding) := by
  constructor
  · intro events s hph hseq d hd
    have hinv : C1Inv view seq s 0 0 := by
      refine ⟨hseq, ?_⟩
      rw [hph]
      simp [C1PhaseInv]
    have := c1_run_lemma period myId view seq events s 0 0 hinv d hd
    omega
  · intro hr s header m hms
    rcases process_message_cases period myId view hr s header m with
      ⟨hph, _, hst⟩ | ⟨_, hms2, _, _, _⟩ |
      ⟨i, _, _, hms2, _, _⟩ | ⟨i, _, _, hms2, _, _⟩ <;>
      first
      | exact ⟨hph, hst⟩
      | exact absurd hms2 hms

/-- C1 witness: a full happy-path run of replica 1 (leader 0, quorum 3)
reaches `Decided` and the trace indeed contains three matching Prepares
and three matching Commits. -/
theorem c1_decided_only_after_quorums_witness :
    (3 : Nat) ≤ countMatchingPrepares 0
        [ ConsensusEvent.proposal 0,
          .incoming (fun _ => true) ⟨0, 1⟩ ⟨0, .PrePrepare 7⟩,
          .incoming (fun _ => true) ⟨0, 2⟩ ⟨0, .Prepare⟩,
          .incoming (fun _ => true) ⟨2, 3⟩ ⟨0, .Prepare⟩,
          .incoming (fun _ => true) ⟨3, 4⟩ ⟨0, .Prepare⟩,
          .incoming (fun _ => true) ⟨0, 5⟩ ⟨0, .Commit⟩,
          .incoming (fun _ => true) ⟨2, 6⟩ ⟨0, .Commit⟩,
          .incoming (fun _ => true) ⟨3, 7⟩ ⟨0, .Commit⟩ ]
    ∧ (3 : Nat) ≤ countMatchingCommits 0
        [ ConsensusEvent.proposal 0,
          .incoming (fun _ => true) ⟨0, 1⟩ ⟨0, .PrePrepare 7⟩,
          .incoming (fun _ => true) ⟨0, 2⟩ ⟨0, .Prepare⟩,
          .incoming (fun _ => true) ⟨2, 3⟩ ⟨0, .Prepare⟩,
          .incoming (fun _ => true) ⟨3, 4⟩ ⟨0, .Prepare⟩,
          .incoming (fun _ => true) ⟨0, 5⟩ ⟨0, .Commit⟩,
          .incoming (fun _ => true) ⟨2, 6⟩ ⟨0, .Commit⟩,
          .incoming (fun _ => true) ⟨3, 7⟩ ⟨0, .Commit⟩ ] :=
  (c1_decided_only_after_quorums 100 1 ⟨0, 4, 3⟩ 0).1
    [ ConsensusEvent.proposal 0,
      .incoming (fun _ => true) ⟨0, 1⟩ ⟨0, .PrePrepare 7⟩,
      .incoming (fun _ => true) ⟨0, 2⟩ ⟨0, .Prepare⟩,
      .incoming (fun _ => true) ⟨2, 3⟩ ⟨0, .Prepare⟩,
      .incoming (fun _ => true) ⟨3, 4⟩ ⟨0, .Prepare⟩,
      .incoming (fun _ => true) ⟨0, 5⟩ ⟨0, .Commit⟩,
      .incoming (fun _ => true) ⟨2, 6⟩ ⟨0, .Commit⟩,
      .incoming (fun _ => true) ⟨3, 7⟩ ⟨0, .Commit⟩ ]
    ⟨.Init, ⟨0, false, [], [], []⟩, 0⟩ rfl rfl 7 (by decide)

theorem c3_inv_step (period : Nat) (myId : NodeId) (view : ViewInfo)
    (s : Consensus) (p c : Nat) (e : ConsensusEvent)
    (hinv : C3PhaseInv s.phase p c)
    (hnd : ∀ d, (consensusStep period myId view s e).2.1
      ≠ some (.Decided d)) :
    C3PhaseInv (consensusStep period myId view s e).1.phase
      (p + countBroadcasts .Prepare (consensusStep period myId view s e).2.2)
      (c + countBroadcasts .Commit (consensusStep period myId view s e).2.2) := by
  cases e with
  | proposal dig =>
    obtain ⟨hor, _, hcp, hcc⟩ := propose_frame myId view dig s
    show C3PhaseInv (s.propose myId view dig).1.phase
      (p + countBroadcasts .Prepare (s.propose myId view dig).2)
      (c + countBroadcasts .Commit (s.propose myId view dig).2)
    rw [hcp, hcc]
    rcases hor with h | ⟨hInit, h⟩
    · rw [h, Nat.add_zero, Nat.add_zero]
      exact hinv
    · rw [h, Nat.add_zero, Nat.add_zero]
      rw [hInit] at hinv
      simp only [C3PhaseInv] at hinv ⊢
      omega
  | polled hr =>
    obtain ⟨hor, _⟩ := poll_frame hr s
    show C3PhaseInv (s.poll hr).1.phase
      (p + countBroadcasts .Prepare []) (c + countBroadcasts .Commit [])
    have hz : ∀ k, countBroadcasts k [] = 0 := fun k => rfl
    rw [hz, hz]
    rcases hor with h | ⟨hInit, h⟩
    · rw [h, Nat.add_zero, Nat.add_zero]
      exact hinv
    · rw [h, Nat.add_zero, Nat.add_zero]
      rw [hInit] at hinv
      simp only [C3PhaseInv] at hinv ⊢
      omega
  | incoming hr header m =>
    have hstep : (consensusStep period myId view s (.incoming hr header m))
        = ((s.process_message period myId view hr header m).1,
           some (s.process_message period myId view hr header m).2.1,
           (s.process_message period myId view hr header m).2.2) := rfl
    rw [hstep] at hnd ⊢
    rcases process_message_cases period myId view hr s header m with
      ⟨hph, hbc, _⟩ | ⟨hph, _, hph2, _, hbc⟩ |
      ⟨i, hph, _, _, _, hsub⟩ | ⟨i, hph, _, _, hbc, hsub⟩
    · rw [hph, hbc]
      simpa [countBroadcasts] using hinv
    · rw [hph] at hinv
      rw [hph2]
      simp only [C3PhaseInv] at hinv ⊢
      rcases hbc with hbc | hbc <;>
        rw [hbc] <;>
        simp [countBroadcasts] <;>
        omega
    · rw [hph] at hinv
      simp only [C3PhaseInv] at hinv
      rcases hsub with ⟨_, hph2, hbc⟩ | ⟨_, hph2, hbc⟩ <;>
        rw [hph2, hbc] <;>
        simp only [C3PhaseInv] <;>
        simp [countBroadcasts] <;>
        omega
    · rw [hph] at hinv
      simp only [C3PhaseInv] at hinv
      rcases hsub with ⟨_, hph2, _⟩ | ⟨_, _, hst⟩
      · rw [hph2, hbc]
        simp only [C3PhaseInv]
        simp [countBroadcasts]
        omega
      · exact absurd (by simp [hst]) (hnd s.current)

theorem c3_run_lemma (period : Nat) (myId : NodeId) (view : ViewInfo) :
    ∀ (events : List ConsensusEvent) (s : Consensus) (p c : Nat),
      C3PhaseInv s.phase p c →
      (∀ st ∈ (consensusRun period myId view s events).2.1,
        ∀ d, st ≠ some (.Decided d)) →
      p + countBroadcasts .Prepare (consensusRun period myId view s events).2.2
          ≤ 1
        ∧ c + countBroadcasts .Commit
            (consensusRun period myId view s events).2.2 ≤ 1 := by
  intro events
  induction events with
  | nil =>
    intro s p c hinv _
    have hz : ∀ k, countBroadcasts k (consensusRun period myId view s []).2.2
        = 0 := fun k => rfl
    rw [hz, hz]
    cases hph : s.phase <;> rw [hph] at hinv <;>
      simp only [C3PhaseInv] at hinv <;> omega
  | cons e es ih =>
    intro s p c hinv hnd
    rw [consensusRun_cons] at hnd ⊢
    have hnd0 : ∀ d, (consensusStep period myId view s e).2.1
        ≠ some (.Decided d) := by
      intro d
      exact hnd _ (List.mem_cons_self _ _) d
    have hinv2 := c3_inv_step period myId view s p c e hinv hnd0
    have hrest := ih (consensusStep period myId view s e).1
      (p + countBroadcasts .Prepare (consensusStep period myId view s e).2.2)
      (c + countBroadcasts .Commit (consensusStep period myId view s e).2.2)
      hinv2
      (fun st hst d => hnd st (List.mem_cons_of_mem _ hst) d)
    have happ : ∀ k l1 l2, countBroadcasts k (l1 ++ l2)
        = countBroadcasts k l1 + countBroadcasts k l2 := by
      intro k l1 l2
      simp [countBroadcasts, List.countP_append]
    rw [happ, happ]
    omega


/-- C3: over any single consensus instance — a run of events starting in
`Init` up to (and, since the deciding step broadcasts nothing, including)
the `Decided` transition — the replica broadcasts at most one Prepare
and at most one Commit: the Prepare broadcast happens only on the unique
`PrePreparing → Preparing 0` transition, the Commit broadcast only on
the unique `Preparing(quorum-1+1) → Committing 0` transition, and the
step returning `Decided` broadcasts nothing. -/
theorem c3_single_vote (period : Nat) (myId : NodeId) (view : ViewInfo) :
    (∀ (events : List ConsensusEvent) (s : Consensus),
        s.phase = .Init →
        (∀ st ∈ (consensusRun period myId view s events).2.1,
          ∀ d, st ≠ some (.Decided d)) →
        countBroadcasts .Prepare
            (consensusRun period myId view s events).2.2 ≤ 1
          ∧ countBroadcasts .Commit
              (consensusRun period myId view s events).2.2 ≤ 1)
    ∧ (∀ (hr : Digest → Bool) (s : Consensus) (header : Header)
          (m : ConsensusMessage) (d : Digest),
        (s.process_message period myId view hr header m).2.1 = .Decided d →
          (s.process_message period myId view hr header m).2.2 = [])
    ∧ (∀ (hr : Digest → Bool) (s : Consensus) (header : Header)
          (m : ConsensusMessage),
        countBroadcasts .Prepare
            (s.process_message period myId view hr header m).2.2 ≠ 0 →
          s.phase = .PrePreparing
            ∧ (s.process_message period myId view hr header m).1.phase
                = .Preparing 0)
    ∧ (∀ (hr : Digest → Bool) (s : Consensus) (header : Header)
          (m : ConsensusMessage),
        countBroadcasts .Commit
            (s.process_message period myId view hr header m).2.2 ≠ 0 →
          ∃ i, s.phase = .Preparing i ∧ i + 1 = view.quorum
            ∧ (s.process_message period myId view hr header m).1.phase
                = .Committing 0) := by
  refine ⟨?_, ?_, ?_, ?_⟩
  · intro events s hph hnd
    have hinv : C3PhaseInv s.phase 0 0 := by
      rw [hph]
      simp [C3PhaseInv]
    have := c3_run_lemma period myId view events s 0 0 hinv hnd
    omega
  · intro hr s header m d hst
    rcases process_message_cases period myId view hr s header m with
      ⟨_, hbc, hst2⟩ | ⟨_, _, _, hst2, _⟩ |
      ⟨i, _, _, _, hst2, _⟩ | ⟨i, _, _, _, hbc, _⟩
    · exact hbc
    · rw [hst2] at hst
      cases hst
    · rw [hst2] at hst
      cases hst
    · exact hbc
  · intro hr s header m hcnt
    rcases process_message_cases period myId view hr s header m with
      ⟨_, hbc, _⟩ | ⟨hph, _, hph2, _, hbc⟩ |
      ⟨i, _, _, _, _, hsub⟩ | ⟨i, _, _, _, hbc, _⟩
    · rw [hbc] at hcnt
      exact absurd rfl hcnt
    · exact ⟨hph, hph2⟩
    · rcases hsub with ⟨_, _, hbc⟩ | ⟨_, _, hbc⟩ <;>
        rw [hbc] at hcnt <;>
        simp [countBroadcasts] at hcnt
    · rw [hbc] at hcnt
      exact absurd rfl hcnt
  · intro hr s header m hcnt
    rcases process_message_cases period myId view hr s header m with
      ⟨_, hbc, _⟩ | ⟨_, _, _, _, hbc⟩ |
      ⟨i, hph, _, _, _, hsub⟩ | ⟨i, _, _, _, hbc, _⟩
    · rw [hbc] at hcnt
      exact absurd rfl hcnt
    · rcases hbc with hbc | hbc <;>
        rw [hbc] at hcnt <;>
        simp [countBroadcasts] at hcnt
    · rcases hsub with ⟨_, _, hbc⟩ | ⟨hq, hph2, _⟩
      · rw [hbc] at hcnt
        exact absurd rfl hcnt
      · exact ⟨i, hph, hq, hph2⟩
    · rw [hbc] at hcnt
      exact absurd rfl hcnt

/-- C3 witness: replica 1 (leader 0, quorum 3) processes a PrePrepare and
three Prepares; no step decides, and the run broadcasts exactly one
Prepare and one Commit — within the single-vote bound. -/
theorem c3_single_vote_witness :
    countBroadcasts .Prepare
        (consensusRun 100 1 ⟨0, 4, 3⟩ ⟨.Init, ⟨0, false, [], [], []⟩, 0⟩
          [ ConsensusEvent.proposal 0,
            .incoming (fun _ => true) ⟨0, 1⟩ ⟨0, .PrePrepare 7⟩,
            .incoming (fun _ => true) ⟨0, 2⟩ ⟨0, .Prepare⟩,
            .incoming (fun _ => true) ⟨2, 3⟩ ⟨0, .Prepare⟩,
            .incoming (fun _ => true) ⟨3, 4⟩ ⟨0, .Prepare⟩ ]).2.2 ≤ 1
    ∧ countBroadcasts .Commit
        (consensusRun 100 1 ⟨0, 4, 3⟩ ⟨.Init, ⟨0, false, [], [], []⟩, 0⟩
          [ ConsensusEvent.proposal 0,
            .incoming (fun _ => true) ⟨0, 1⟩ ⟨0, .PrePrepare 7⟩,
            .incoming (fun _ => true) ⟨0, 2⟩ ⟨0, .Prepare⟩,
            .incoming (fun _ => true) ⟨2, 3⟩ ⟨0, .Prepare⟩,
            .incoming (fun _ => true) ⟨3, 4⟩ ⟨0, .Prepare⟩ ]).2.2 ≤ 1 :=
  (c3_single_vote 100 1 ⟨0, 4, 3⟩).1
    [ ConsensusEvent.proposal 0,
      .incoming (fun _ => true) ⟨0, 1⟩ ⟨0, .PrePrepare 7⟩,
      .incoming (fun _ => true) ⟨0, 2⟩ ⟨0, .Prepare⟩,
      .incoming (fun _ => true) ⟨2, 3⟩ ⟨0, .Prepare⟩,
      .incoming (fun _ => true) ⟨3, 4⟩ ⟨0, .Prepare⟩ ]
    ⟨.Init, ⟨0, false, [], [], []⟩, 0⟩ rfl (by
      intro st hst d
      have hsts : (consensusRun 100 1 ⟨0, 4, 3⟩
          ⟨.Init, ⟨0, false, [], [], []⟩, 0⟩
          [ ConsensusEvent.proposal 0,
            .incoming (fun _ => true) ⟨0, 1⟩ ⟨0, .PrePrepare 7⟩,
            .incoming (fun _ => true) ⟨0, 2⟩ ⟨0, .Prepare⟩,
            .incoming (fun _ => true) ⟨2, 3⟩ ⟨0, .Prepare⟩,
            .incoming (fun _ => true) ⟨3, 4⟩ ⟨0, .Prepare⟩ ]).2.1
          = [none, some .Deciding, some .Deciding, some .Deciding,
             some .Deciding] := by decide
      rw [hsts] at hst
      fin_cases hst <;> simp)

end Febft
